import Mathlib

/-!
Shallow embedding of the notifylm event pipeline and observability store.

Sources embedded:
* `internal/message` — the `Message` data type and its `Source` tag.
* `internal/classifier` — `ActionItem`, `ClassificationResult`, and the
  action-item materialization loop of `parseJSONResponse`.
* `internal/store` — the `Store`: ring buffer of `ProcessedMessage`s,
  listener statuses, capped notification log, stats, SSE subscribers.
* `cmd/notifylm/main.go` — `handleMessage` / `processMessages`.

Modelling conventions: Go `time.Time` values are abstract instants modelled
as `Int`; Go pointers `*time.Time` are addresses (`Nat`) into an explicit
heap of time cells (`Store.timeHeap`), so that pointer sharing between a
returned snapshot and internal state is expressible.  Go `nil` pointers are
`Option.none`.  Go maps iterated in some order are modelled as association
lists in insertion order.  A subscriber's buffered channel
(`make(chan string, 16)`) is its list of pending tokens, oldest first; a
`select`/`default` send appends iff fewer than 16 tokens are pending.
External fallible calls (classifier, notifier, calendar) are modelled by
their outcomes, supplied as inputs to `handleMessage`.
-/

namespace NotifyLM

/-- `message.Source` is a Go string type. -/
abbrev Source := String

/-- `message.SourceWhatsApp`. -/
def sourceWhatsApp : Source := "whatsapp"

/-- `message.SourceTelegram`. -/
def sourceTelegram : Source := "telegram"

/-- `message.SourceSlack`. -/
def sourceSlack : Source := "slack"

/-- `message.SourceGmail`. -/
def sourceGmail : Source := "gmail"

/-- `message.Message`. -/
structure Message where
  id : String
  source : Source
  sender : String
  text : String
  timestamp : Int
  metadata : List (String × String)
deriving Repr, DecidableEq

/-- `classifier.ActionItem`. -/
structure ActionItem where
  title : String
  description : String
  dateTime : Int
  durationMinutes : Int
deriving Repr, DecidableEq

/-- `classifier.ClassificationResult`. -/
structure ClassificationResult where
  isUrgent : Bool
  actionItems : List ActionItem
deriving Repr, DecidableEq

/-- `store.ProcessedMessage`; Go nil-able pointer fields become `Option`. -/
structure ProcessedMessage where
  message : Option Message
  classification : Option ClassificationResult
  notifiedAt : Option Int
  eventsCreated : Int
  processedAt : Int
deriving Repr, DecidableEq

instance : Inhabited ProcessedMessage := ⟨⟨none, none, none, 0, 0⟩⟩

/-- `store.ListenerStatus`; `LastMessage *time.Time` is an optional heap
address into `Store.timeHeap`. -/
structure ListenerStatus where
  name : String
  source : Source
  connected : Bool
  messageCount : Int
  lastMessage : Option Nat
deriving Repr, DecidableEq

instance : Inhabited ListenerStatus := ⟨⟨"", "", false, 0, none⟩⟩

/-- `store.Notification`. -/
structure Notification where
  message : Option Message
  reason : String
  sentAt : Int
deriving Repr, DecidableEq

instance : Inhabited Notification := ⟨⟨none, "", 0⟩⟩

/-- `store.Stats`; `BySource` is an association list standing for the Go map. -/
structure Stats where
  totalMessages : Int
  urgentMessages : Int
  totalActionItems : Int
  notificationsSent : Int
  eventsCreated : Int
  bySource : List (Source × Int)
deriving Repr, DecidableEq

/-- `store.maxNotifications = 100`. -/
def maxNotifications : Nat := 100

/-- Capacity of each subscriber channel: `make(chan string, 16)` in `Subscribe`. -/
def subscriberChanCap : Nat := 16

/-- `store.Store`.  `messages` always has length `capacity` (the Go slice is
allocated once, full-size, by `NewStore`).  `listeners` is the Go
`map[string]*ListenerStatus` as a list in insertion order.  `subscribers`
lists each subscriber channel's buffered contents; `timeHeap` holds the
`time.Time` cells that `*time.Time` fields point into. -/
structure Store where
  messages : List ProcessedMessage
  capacity : Nat
  writeIdx : Nat
  count : Nat
  listeners : List ListenerStatus
  notifications : List Notification
  stats : Stats
  subscribers : List (List String)
  timeHeap : List Int
deriving Repr, DecidableEq

/-- `store.NewStore`: capacity defaults to 500 when non-positive. -/
def NewStore (capacity : Int) : Store :=
  let cap : Nat := if capacity ≤ 0 then 500 else capacity.toNat
  { messages := List.replicate cap default
    capacity := cap
    writeIdx := 0
    count := 0
    listeners := []
    notifications := []
    stats := ⟨0, 0, 0, 0, 0, []⟩
    subscribers := []
    timeHeap := [] }

/-- `s.stats.BySource[src]++` on the association list: increment in place if
the key is present, otherwise insert it with value 1 (Go map write of a
previously absent key). -/
def bumpSource : List (Source × Int) → Source → List (Source × Int)
  | [], k => [(k, 1)]
  | (k, v) :: rest, k0 => if k = k0 then (k, v + 1) :: rest else (k, v) :: bumpSource rest k0

/-- Go map read `m[src]` (zero value 0 when absent). -/
def lookupSource : List (Source × Int) → Source → Int
  | [], _ => 0
  | (k, v) :: rest, k0 => if k = k0 then v else lookupSource rest k0

/-- `store.notifySubscribers`: non-blocking send of `event` to every
subscriber channel; a full channel (16 buffered tokens, no room) is skipped. -/
def notifySubscribers (subs : List (List String)) (event : String) : List (List String) :=
  subs.map fun ch => if ch.length < subscriberChanCap then ch ++ [event] else ch

/-- `store.AddProcessedMessage`: write into the ring buffer at `writeIdx`,
advance `writeIdx` modulo capacity, grow `count` up to capacity, update the
stats incrementally, then notify SSE subscribers with "refresh". -/
def AddProcessedMessage (s : Store) (pm : ProcessedMessage) : Store :=
  let messages := s.messages.set s.writeIdx pm
  let writeIdx := (s.writeIdx + 1) % s.capacity
  let count := if s.count < s.capacity then s.count + 1 else s.count
  let st0 := { s.stats with totalMessages := s.stats.totalMessages + 1 }
  let st1 := match pm.message with
    | some m => { st0 with bySource := bumpSource st0.bySource m.source }
    | none => st0
  let st2 := match pm.classification with
    | some c =>
        let stu := if c.isUrgent
          then { st1 with urgentMessages := st1.urgentMessages + 1 } else st1
        { stu with totalActionItems := stu.totalActionItems + c.actionItems.length }
    | none => st1
  let st3 := match pm.notifiedAt with
    | some _ => { st2 with notificationsSent := st2.notificationsSent + 1 }
    | none => st2
  let st4 := { st3 with eventsCreated := st3.eventsCreated + pm.eventsCreated }
  { s with messages := messages, writeIdx := writeIdx, count := count, stats := st4,
           subscribers := notifySubscribers s.subscribers "refresh" }

/-- The index expression `(s.writeIdx - 1 - i + s.capacity) % s.capacity` of
the read loops, computed in Go `int` arithmetic (truncated remainder). -/
def ringIdx (writeIdx i capacity : Nat) : Nat :=
  (Int.tmod ((writeIdx : Int) - 1 - (i : Int) + (capacity : Int)) (capacity : Int)).toNat

/-- The backward walk of the ring buffer performed by the read loops:
element `i` is the record `i` steps behind the last written position. -/
def recentWalk (s : Store) (n : Nat) : List ProcessedMessage :=
  (List.range n).map fun i => s.messages.getD (ringIdx s.writeIdx i s.capacity) default

/-- `store.GetRecentMessages`: clamp the limit to the occupancy (treating
non-positive limits as "everything"), then walk backward from the most
recently written position. -/
def GetRecentMessages (s : Store) (limit : Int) : List ProcessedMessage :=
  let lim : Nat := if limit ≤ 0 ∨ (s.count : Int) < limit then s.count else limit.toNat
  recentWalk s lim

/-- `store.GetRecentMessagesBySource`: walk the whole occupancy backward,
keep records from `source`, stop once `limit` records are collected (the Go
loop guard `len(result) < limit` is the `take`). -/
def GetRecentMessagesBySource (s : Store) (source : Source) (limit : Int) :
    List ProcessedMessage :=
  let lim : Nat := if limit ≤ 0 then s.count else limit.toNat
  ((recentWalk s s.count).filter fun pm =>
    match pm.message with
    | some m => m.source = source
    | none => false).take lim

/-- `store.UpdateListenerStatus`: create the status on first sight of the
name, then set its `Connected` flag in place. -/
def UpdateListenerStatus (s : Store) (name : String) (source : Source)
    (connected : Bool) : Store :=
  if s.listeners.any (fun ls => ls.name = name) then
    { s with listeners := s.listeners.map fun ls =>
        if ls.name = name then { ls with connected := connected } else ls }
  else
    { s with listeners := s.listeners ++
        [{ name := name, source := source, connected := connected,
           messageCount := 0, lastMessage := none }] }

/-- The loop of `IncrementListenerMessageCount`: find the first status whose
source matches, bump its count and point `LastMessage` at the fresh heap
cell `heapPtr`, and return; `none` when no status matches. -/
def incrementLoop (heapPtr : Nat) (source : Source) :
    List ListenerStatus → Option (List ListenerStatus)
  | [] => none
  | ls :: rest =>
      if ls.source = source then
        some ({ ls with messageCount := ls.messageCount + 1,
                        lastMessage := some heapPtr } :: rest)
      else
        (incrementLoop heapPtr source rest).map (ls :: ·)

/-- `store.IncrementListenerMessageCount`: `now := time.Now()` is `now`; on a
match the cell holding `now` is allocated (appended to the heap) and the
matched status points at it; with no match the store is untouched. -/
def IncrementListenerMessageCount (s : Store) (source : Source) (now : Int) : Store :=
  match incrementLoop s.timeHeap.length source s.listeners with
  | some ls => { s with listeners := ls, timeHeap := s.timeHeap ++ [now] }
  | none => s

/-- `store.GetListenerStatuses`: `cp := *ls` copies each status struct — its
direct fields, including the `LastMessage` address, but not the pointed-to
time cell. -/
def GetListenerStatuses (s : Store) : List ListenerStatus :=
  s.listeners.map fun ls => ls

/-- A write through a `*time.Time` into the heap of time cells (the external
mutation the snapshot claim is about). -/
def writeTimeCell (s : Store) (p : Nat) (v : Int) : Store :=
  { s with timeHeap := s.timeHeap.set p v }

/-- Dereference a status's `LastMessage` pointer in a given store's heap. -/
def observedLastMessage (s : Store) (ls : ListenerStatus) : Option Int :=
  ls.lastMessage.map fun p => s.timeHeap.getD p 0

/-- `store.AddNotification`: at capacity (≥ 100 entries) drop the oldest
entry, then append. -/
def AddNotification (s : Store) (n : Notification) : Store :=
  let base := if maxNotifications ≤ s.notifications.length
    then s.notifications.drop 1 else s.notifications
  { s with notifications := base ++ [n] }

/-- `store.GetRecentNotifications`: clamp the limit to the log length
(non-positive means "everything"), then read backward from the end. -/
def GetRecentNotifications (s : Store) (limit : Int) : List Notification :=
  let total := s.notifications.length
  let lim : Nat := if limit ≤ 0 ∨ (total : Int) < limit then total else limit.toNat
  (List.range lim).map fun i => s.notifications.getD (total - 1 - i) default

/-- `store.Subscribe`: register a fresh empty channel of capacity 16. -/
def Subscribe (s : Store) : Store :=
  { s with subscribers := s.subscribers ++ [[]] }

/-- Fold of `AddProcessedMessage` over a list of inserts. -/
def insertAll (s : Store) (l : List ProcessedMessage) : Store :=
  l.foldl AddProcessedMessage s

/-- Fold of `AddNotification` over a list of appends. -/
def appendAll (s : Store) (l : List Notification) : Store :=
  l.foldl AddNotification s

/-!  Classifier: the action-item materialization loop of
`parseJSONResponse` (internal/classifier/classifier.go).  JSON decoding and
`time.Parse(time.RFC3339, ...)` are external to the loop; the parser is an
input (`parse`), `none` meaning a parse error. -/

/-- A decoded `llmActionItem` (the JSON shape the LLM returns). -/
structure LlmActionItem where
  title : String
  description : String
  datetime : String
  durationMinutes : Int
deriving Repr, DecidableEq

/-- A decoded `llmResponse`. -/
structure LlmResponse where
  urgent : Bool
  actionItems : List LlmActionItem
deriving Repr, DecidableEq

/-- One iteration of the materialization loop: default the duration to 30
when non-positive, skip the item (`continue`) when its datetime string is
empty or fails to parse, otherwise materialize it with the parsed instant. -/
def materializeItem (parse : String → Option Int) (it : LlmActionItem) :
    Option ActionItem :=
  let d := if it.durationMinutes ≤ 0 then 30 else it.durationMinutes
  if it.datetime = "" then none
  else
    match parse it.datetime with
    | none => none
    | some t =>
        some { title := it.title, description := it.description,
               dateTime := t, durationMinutes := d }

/-- `parseJSONResponse` after JSON decoding: urgency is copied, action items
are the materialized survivors of the loop, in order. -/
def parseJSONResponseDecoded (parse : String → Option Int) (resp : LlmResponse) :
    ClassificationResult :=
  { isUrgent := resp.urgent
    actionItems := resp.actionItems.filterMap (materializeItem parse) }

/-!  Processor: `handleMessage` and `processMessages` (cmd/notifylm/main.go).
The external calls (classifier, notifier per send, calendar creator per
item) and every `time.Now()` read are inputs, packaged in `MsgEnv`. -/

/-- One message together with the outcomes of its external calls:
`clsResult = none` models `ClassifyMessage` returning an error;
`urgentNotifyTime = some t` models the urgency `notify.Notify` succeeding
with `time.Now() = t` (`none` is a send failure); `itemNotifyTimes`/
`itemCalOk` give the per-action-item notify and calendar outcomes;
`calConfigured` is `cal != nil`. -/
structure MsgEnv where
  msg : Message
  clsResult : Option ClassificationResult
  urgentNotifyTime : Option Int
  itemNotifyTimes : List (Option Int)
  itemCalOk : List Bool
  calConfigured : Bool
  incrTime : Int
  processedTime : Int
deriving Repr, DecidableEq

/-- The action-item loop of `handleMessage`: for item `j`, a successful
notify appends an "action_item" log entry and sets `notifiedAt` if still
nil; a configured, successful calendar creation bumps `eventsCreated`. -/
def processItems (msg : Message) (itemNotifyTimes : List (Option Int))
    (itemCalOk : List Bool) (calConfigured : Bool) :
    List ActionItem → Nat → Option Int → Int → Store → Option Int × Int × Store
  | [], _, notifiedAt, eventsCreated, s => (notifiedAt, eventsCreated, s)
  | _ :: rest, j, notifiedAt, eventsCreated, s =>
      let na := match itemNotifyTimes.getD j none with
        | none => notifiedAt
        | some t => if notifiedAt.isSome then notifiedAt else some t
      let s1 := match itemNotifyTimes.getD j none with
        | none => s
        | some t =>
            AddNotification s { message := some msg, reason := "action_item", sentAt := t }
      let ev := if calConfigured && itemCalOk.getD j false
        then eventsCreated + 1 else eventsCreated
      processItems msg itemNotifyTimes itemCalOk calConfigured rest (j + 1) na ev s1

/-- The urgency step of `handleMessage`: when the result is urgent and the
notify call succeeds at time `t`, record `notifiedAt = t` and append an
"urgent" log entry; otherwise nothing happens and `notifiedAt` stays nil. -/
def urgentStep (s0 : Store) (e : MsgEnv) (result : ClassificationResult) :
    Option Int × Store :=
  if result.isUrgent then
    match e.urgentNotifyTime with
    | none => (none, s0)
    | some t =>
        (some t,
         AddNotification s0 { message := some e.msg, reason := "urgent", sentAt := t })
  else (none, s0)

/-- `handleMessage`: track the listener, classify; on classifier error store
a record with nil classification and return; otherwise send the urgency
notification when urgent, run the action-item loop, and store the full
record. -/
def handleMessage (s : Store) (e : MsgEnv) : Store :=
  let s0 := IncrementListenerMessageCount s e.msg.source e.incrTime
  match e.clsResult with
  | none =>
      AddProcessedMessage s0
        { message := some e.msg, classification := none, notifiedAt := none,
          eventsCreated := 0, processedAt := e.processedTime }
  | some result =>
      let u := urgentStep s0 e result
      let afterItems := processItems e.msg e.itemNotifyTimes e.itemCalOk e.calConfigured
        result.actionItems 0 u.1 0 u.2
      AddProcessedMessage afterItems.2.2
        { message := some e.msg, classification := some result,
          notifiedAt := afterItems.1, eventsCreated := afterItems.2.1,
          processedAt := e.processedTime }

/-- `processMessages`: handle every queued message in order (a failing
classification never stops the loop; the loop ends only when the channel is
exhausted). -/
def processMessages (s : Store) (es : List MsgEnv) : Store :=
  es.foldl handleMessage s

/-- The sequence of notify outcomes attempted for a classified message, in
program order: the urgency send (only when urgent) followed by one send per
action item. -/
def notifyAttempts (e : MsgEnv) (result : ClassificationResult) : List (Option Int) :=
  (if result.isUrgent then [e.urgentNotifyTime] else []) ++
    (List.range result.actionItems.length).map fun j => e.itemNotifyTimes.getD j none

/-- First successful outcome in a list of attempt outcomes. -/
def firstSome : List (Option Int) → Option Int
  | [] => none
  | some t :: _ => some t
  | none :: rest => firstSome rest

/-- A record carries an urgent classification. -/
def isUrgentRecord (pm : ProcessedMessage) : Bool :=
  match pm.classification with
  | some c => c.isUrgent
  | none => false

/-- Number of action items a record carries (0 when unclassified). -/
def recordActionItems (pm : ProcessedMessage) : Nat :=
  match pm.classification with
  | some c => c.actionItems.length
  | none => 0

/-- A record's message exists and carries the given source. -/
def hasSource (src : Source) (pm : ProcessedMessage) : Bool :=
  match pm.message with
  | some m => m.source = src
  | none => false

/-! ### List helper lemmas -/

theorem getD_map_of_lt {α β : Type _} (f : α → β) (l : List α) (i : Nat)
    (hi : i < l.length) (d : β) (d0 : α) :
    (l.map f).getD i d = f (l.getD i d0) := by
  rw [List.getD_eq_getElem?_getD, List.getD_eq_getElem?_getD, List.getElem?_map,
    List.getElem?_eq_getElem hi]
  rfl

theorem getD_set_self_of_lt {α : Type _} (l : List α) (i : Nat) (a : α)
    (hi : i < l.length) (d : α) :
    (l.set i a).getD i d = a := by
  have hi2 : i < (l.set i a).length := by simpa using hi
  rw [List.getD_eq_getElem?_getD, List.getElem?_eq_getElem hi2,
    List.getElem_set_self]
  rfl

theorem getD_set_ne {α : Type _} (l : List α) (i j : Nat) (a : α) (h : i ≠ j)
    (d : α) : (l.set i a).getD j d = l.getD j d := by
  rw [List.getD_eq_getElem?_getD, List.getD_eq_getElem?_getD,
    List.getElem?_set_ne h]

theorem getD_eq_getElem_of_lt {α : Type _} (l : List α) (i : Nat) (d : α)
    (hi : i < l.length) : l.getD i d = l[i] := by
  rw [List.getD_eq_getElem?_getD, List.getElem?_eq_getElem hi]
  rfl

theorem firstSome_eq_none_iff (xs : List (Option Int)) :
    firstSome xs = none ↔ ∀ a ∈ xs, a = none := by
  induction xs with
  | nil => simp [firstSome]
  | cons x rest ih =>
      cases x with
      | none => simpa [firstSome] using ih
      | some t => simp [firstSome]

/-! ### Stats step lemma -/

theorem lookupSource_bumpSource (m : List (Source × Int)) (k0 k1 : Source) :
    lookupSource (bumpSource m k0) k1 =
      lookupSource m k1 + (if k1 = k0 then 1 else 0) := by
  induction m with
  | nil =>
      by_cases h : k0 = k1
      · subst h; simp [bumpSource, lookupSource]
      · simp [bumpSource, lookupSource, h, Ne.symm h]
  | cons p rest ih =>
      rcases p with ⟨k, v⟩
      by_cases hk : k = k0
      · subst hk
        by_cases h1 : k = k1
        · subst h1; simp [bumpSource, lookupSource]
        · simp [bumpSource, lookupSource, h1, Ne.symm h1]
      · by_cases h1 : k = k1
        · subst h1
          simp [bumpSource, lookupSource, hk, Ne.symm hk]
        · simp [bumpSource, lookupSource, hk, h1, ih]

theorem addPM_stats (s : Store) (pm : ProcessedMessage) :
    (AddProcessedMessage s pm).stats.totalMessages = s.stats.totalMessages + 1 ∧
    (AddProcessedMessage s pm).stats.urgentMessages =
      s.stats.urgentMessages + (if isUrgentRecord pm then 1 else 0) ∧
    (AddProcessedMessage s pm).stats.totalActionItems =
      s.stats.totalActionItems + (recordActionItems pm : Int) ∧
    (AddProcessedMessage s pm).stats.notificationsSent =
      s.stats.notificationsSent + (if pm.notifiedAt.isSome then 1 else 0) ∧
    (AddProcessedMessage s pm).stats.eventsCreated =
      s.stats.eventsCreated + pm.eventsCreated ∧
    ∀ src, lookupSource (AddProcessedMessage s pm).stats.bySource src =
      lookupSource s.stats.bySource src + (if hasSource src pm then 1 else 0) := by
  rcases pm with ⟨m, c, na, ev, pa⟩
  rcases c with _ | ⟨_ | _, items⟩ <;> cases m <;> cases na <;>
    refine ⟨rfl, ?_, ?_, ?_, rfl, fun src => ?_⟩ <;>
    simp [AddProcessedMessage, isUrgentRecord, recordActionItems, hasSource,
      lookupSource_bumpSource, eq_comm]

end NotifyLM

namespace NotifyLM

/-! ### C5 — action-item materialization -/

/-- C5: every action item materialized by `parseJSONResponse` has a
datetime string that was present and parsed successfully (its parsed
instant is the item's `DateTime`), and its `DurationMinutes` is 30 exactly
when the source value was non-positive, the source value otherwise; an
item whose datetime is missing or unparseable is dropped and contributes
nothing to the `ClassificationResult`. -/
theorem c5_materialized_items_wellformed (parse : String → Option Int)
    (resp : LlmResponse) :
    (∀ ai ∈ (parseJSONResponseDecoded parse resp).actionItems,
      ∃ it ∈ resp.actionItems, it.datetime ≠ "" ∧
        parse it.datetime = some ai.dateTime ∧
        ai.title = it.title ∧ ai.description = it.description ∧
        ai.durationMinutes =
          (if it.durationMinutes ≤ 0 then 30 else it.durationMinutes)) ∧
    (∀ it ∈ resp.actionItems, (it.datetime = "" ∨ parse it.datetime = none) →
      materializeItem parse it = none) := by
  constructor
  · intro ai hai
    simp only [parseJSONResponseDecoded, List.mem_filterMap] at hai
    obtain ⟨it, hit, hmat⟩ := hai
    refine ⟨it, hit, ?_⟩
    unfold materializeItem at hmat
    by_cases hdt : it.datetime = ""
    · simp [hdt] at hmat
    · simp only [hdt, if_neg, ite_false] at hmat
      cases hp : parse it.datetime with
      | none => simp [hp] at hmat
      | some t =>
          simp only [hp] at hmat
          cases hmat
          exact ⟨hdt, by simp [hp], rfl, rfl, rfl⟩
  · intro it _ h
    unfold materializeItem
    rcases h with h | h
    · simp [h]
    · by_cases hdt : it.datetime = ""
      · simp [hdt]
      · simp [hdt, h]

/-- A parser accepting exactly one datetime string, for the C5 witness. -/
def parseC5 : String → Option Int :=
  fun s => if s = "2025-03-15T14:00:00Z" then some 100 else none

/-- Well-formed decoded item (non-positive duration, parseable datetime). -/
def itemGoodC5 : LlmActionItem :=
  { title := "Team meeting", description := "sync",
    datetime := "2025-03-15T14:00:00Z", durationMinutes := 0 }

/-- Decoded item with a missing datetime. -/
def itemEmptyC5 : LlmActionItem :=
  { title := "a", description := "b", datetime := "", durationMinutes := 45 }

/-- Decoded item with an unparseable datetime. -/
def itemBadC5 : LlmActionItem :=
  { title := "c", description := "d", datetime := "soon", durationMinutes := 45 }

/-- Decoded LLM response for the C5 witness. -/
def respC5 : LlmResponse :=
  { urgent := false, actionItems := [itemGoodC5, itemEmptyC5, itemBadC5] }

/-- Witness for C5 at a concrete response: the empty-datetime and
unparseable-datetime items are dropped, and the surviving item has the
default duration 30 with the parsed instant. -/
theorem c5_witness :
    materializeItem parseC5 itemEmptyC5 = none ∧
    materializeItem parseC5 itemBadC5 = none ∧
    (parseJSONResponseDecoded parseC5 respC5).actionItems =
      [{ title := "Team meeting", description := "sync",
         dateTime := 100, durationMinutes := 30 }] := by
  have h := c5_materialized_items_wellformed parseC5 respC5
  refine ⟨?_, ?_, by decide⟩
  · exact h.2 itemEmptyC5 (by decide) (Or.inl (by decide))
  · exact h.2 itemBadC5 (by decide) (Or.inr (by decide))

/-! ### C6 — broadcast to subscribers on insert -/

/-- C6: an insert always completes (ring write, count growth, stats bump all
happen), the subscriber set keeps the same size (no subscriber is torn
down), every subscriber whose mailbox has fewer than 16 pending tokens
receives the "refresh" token appended, and a subscriber with a full mailbox
is skipped — its mailbox contents are unchanged. -/
theorem c6_broadcast_skips_full_mailboxes (s : Store) (pm : ProcessedMessage) :
    (AddProcessedMessage s pm).subscribers.length = s.subscribers.length ∧
    (∀ i, i < s.subscribers.length →
      ((s.subscribers.getD i []).length < subscriberChanCap →
        (AddProcessedMessage s pm).subscribers.getD i [] =
          s.subscribers.getD i [] ++ ["refresh"]) ∧
      (subscriberChanCap ≤ (s.subscribers.getD i []).length →
        (AddProcessedMessage s pm).subscribers.getD i [] =
          s.subscribers.getD i [])) ∧
    (AddProcessedMessage s pm).messages = s.messages.set s.writeIdx pm ∧
    (AddProcessedMessage s pm).count =
      (if s.count < s.capacity then s.count + 1 else s.count) ∧
    (AddProcessedMessage s pm).stats.totalMessages =
      s.stats.totalMessages + 1 := by
  have hsub : (AddProcessedMessage s pm).subscribers =
      notifySubscribers s.subscribers "refresh" := rfl
  refine ⟨?_, ?_, rfl, rfl, ?_⟩
  · rw [hsub]; simp [notifySubscribers]
  · intro i hi
    have hmap : (AddProcessedMessage s pm).subscribers.getD i [] =
        (if (s.subscribers.getD i []).length < subscriberChanCap
          then s.subscribers.getD i [] ++ ["refresh"]
          else s.subscribers.getD i []) := by
      rw [hsub]
      exact getD_map_of_lt _ s.subscribers i hi [] []
    constructor
    · intro hlt; rw [hmap, if_pos hlt]
    · intro hge; rw [hmap, if_neg (by omega)]
  · exact (addPM_stats s pm).1

/-! ### C9 — increment mutates at most one listener status -/

theorem incrementLoop_eq_none (p : Nat) (src : Source) (l : List ListenerStatus)
    (h : ∀ ls ∈ l, ls.source ≠ src) : incrementLoop p src l = none := by
  induction l with
  | nil => rfl
  | cons a l ih =>
      have ha : ¬(a.source = src) := h a (List.mem_cons_self a l)
      simp only [incrementLoop, if_neg ha]
      rw [ih fun ls hls => h ls (List.mem_cons_of_mem a hls)]
      rfl

theorem incrementLoop_eq_set (p : Nat) (src : Source) (l : List ListenerStatus)
    (h : l.findIdx (fun ls => ls.source = src) < l.length) :
    incrementLoop p src l =
      some (l.set (l.findIdx fun ls => ls.source = src)
        { l.getD (l.findIdx fun ls => ls.source = src) default with
          messageCount :=
            (l.getD (l.findIdx fun ls => ls.source = src) default).messageCount + 1,
          lastMessage := some p }) := by
  induction l with
  | nil => simp at h
  | cons a l ih =>
      by_cases ha : a.source = src
      · have hidx : (a :: l).findIdx (fun ls => ls.source = src) = 0 := by
          simp [List.findIdx_cons, ha]
        simp [incrementLoop, ha, hidx]
      · have hidx : (a :: l).findIdx (fun ls => ls.source = src) =
            (l.findIdx fun ls => ls.source = src) + 1 := by
          simp [List.findIdx_cons, ha]
        have hlt : (l.findIdx fun ls => ls.source = src) < l.length := by
          rw [hidx] at h; simpa using h
        simp only [incrementLoop, if_neg ha, ih hlt, hidx,
          List.set_cons_succ, List.getD_cons_succ]
        rfl

/-- C9: `IncrementListenerMessageCount` mutates at most one status.  When no
registered listener carries the given source the call is a no-op on the
whole store (nothing is lazily created); when one does, exactly the first
matching status (at `findIdx`) gets its `MessageCount` incremented by one
and its `LastMessage` pointed at the freshly allocated time cell, every
other status and every other piece of store state being unchanged. -/
theorem c9_increment_mutates_at_most_one (s : Store) (source : Source) (now : Int) :
    ((∀ ls ∈ s.listeners, ls.source ≠ source) →
      IncrementListenerMessageCount s source now = s) ∧
    ((s.listeners.findIdx fun ls => ls.source = source) < s.listeners.length →
      (IncrementListenerMessageCount s source now).listeners =
        s.listeners.set (s.listeners.findIdx fun ls => ls.source = source)
          { s.listeners.getD (s.listeners.findIdx fun ls => ls.source = source) default with
            messageCount :=
              (s.listeners.getD (s.listeners.findIdx fun ls => ls.source = source)
                default).messageCount + 1,
            lastMessage := some s.timeHeap.length } ∧
      (∀ k, k ≠ (s.listeners.findIdx fun ls => ls.source = source) →
        (IncrementListenerMessageCount s source now).listeners.getD k default =
          s.listeners.getD k default) ∧
      (IncrementListenerMessageCount s source now).messages = s.messages ∧
      (IncrementListenerMessageCount s source now).notifications = s.notifications ∧
      (IncrementListenerMessageCount s source now).stats = s.stats ∧
      (IncrementListenerMessageCount s source now).subscribers = s.subscribers) := by
  constructor
  · intro h
    unfold IncrementListenerMessageCount
    rw [incrementLoop_eq_none s.timeHeap.length source s.listeners h]
  · intro h
    have hloop := incrementLoop_eq_set s.timeHeap.length source s.listeners h
    unfold IncrementListenerMessageCount
    rw [hloop]
    refine ⟨rfl, fun k hk => ?_, rfl, rfl, rfl, rfl⟩
    exact getD_set_ne _ _ _ _ (fun e => hk e.symm) _

/-- A registered WhatsApp listener status, for the C9 witness. -/
def lsWhatsAppC9 : ListenerStatus :=
  { name := "WhatsApp", source := sourceWhatsApp, connected := true,
    messageCount := 0, lastMessage := none }

/-- A registered Telegram listener status, for the C9 witness. -/
def lsTelegramC9 : ListenerStatus :=
  { name := "Telegram", source := sourceTelegram, connected := true,
    messageCount := 0, lastMessage := none }

/-- Store with two registered listeners, for the C9 witness. -/
def storeC9 : Store :=
  { NewStore 1 with listeners := [lsWhatsAppC9, lsTelegramC9] }

/-- Witness for C9 at a concrete store: an increment for an unregistered
source leaves the store untouched, and an increment for telegram mutates
only the telegram status. -/
theorem c9_witness :
    IncrementListenerMessageCount storeC9 sourceSlack 7 = storeC9 ∧
    (IncrementListenerMessageCount storeC9 sourceTelegram 7).listeners =
      [lsWhatsAppC9,
       { name := "Telegram", source := sourceTelegram, connected := true,
         messageCount := 1, lastMessage := some 0 }] := by
  have h1 := c9_increment_mutates_at_most_one storeC9 sourceSlack 7
  have h2 := c9_increment_mutates_at_most_one storeC9 sourceTelegram 7
  refine ⟨h1.1 (by decide), ?_⟩
  obtain ⟨hset, -⟩ := h2.2 (by decide)
  rw [hset]
  decide

/-! ### Processor lemmas (C4, C7) -/

theorem incr_preserves (s : Store) (src : Source) (t : Int) :
    (IncrementListenerMessageCount s src t).messages = s.messages ∧
    (IncrementListenerMessageCount s src t).writeIdx = s.writeIdx ∧
    (IncrementListenerMessageCount s src t).notifications = s.notifications ∧
    (IncrementListenerMessageCount s src t).stats = s.stats := by
  unfold IncrementListenerMessageCount
  cases incrementLoop s.timeHeap.length src s.listeners <;>
    exact ⟨rfl, rfl, rfl, rfl⟩

theorem processItems_preserves (msg : Message) (ts : List (Option Int))
    (cs : List Bool) (cfg : Bool) (items : List ActionItem) (j : Nat)
    (na : Option Int) (ev : Int) (s : Store) :
    (processItems msg ts cs cfg items j na ev s).2.2.messages = s.messages ∧
    (processItems msg ts cs cfg items j na ev s).2.2.writeIdx = s.writeIdx ∧
    (processItems msg ts cs cfg items j na ev s).2.2.stats = s.stats := by
  induction items generalizing j na ev s with
  | nil => exact ⟨rfl, rfl, rfl⟩
  | cons it rest ih =>
      simp only [processItems]
      cases ts.getD j none <;> simpa using ih ..

theorem urgentStep_preserves (s0 : Store) (e : MsgEnv) (result : ClassificationResult) :
    (urgentStep s0 e result).2.messages = s0.messages ∧
    (urgentStep s0 e result).2.writeIdx = s0.writeIdx ∧
    (urgentStep s0 e result).2.stats = s0.stats := by
  unfold urgentStep
  cases result.isUrgent <;> cases e.urgentNotifyTime <;> exact ⟨rfl, rfl, rfl⟩

theorem handleMessage_classified (s : Store) (e : MsgEnv)
    (result : ClassificationResult) (hcls : e.clsResult = some result) :
    handleMessage s e =
      AddProcessedMessage
        (processItems e.msg e.itemNotifyTimes e.itemCalOk e.calConfigured
          result.actionItems 0
          (urgentStep (IncrementListenerMessageCount s e.msg.source e.incrTime) e result).1 0
          (urgentStep (IncrementListenerMessageCount s e.msg.source e.incrTime) e result).2).2.2
        { message := some e.msg, classification := some result,
          notifiedAt := (processItems e.msg e.itemNotifyTimes e.itemCalOk e.calConfigured
            result.actionItems 0
            (urgentStep (IncrementListenerMessageCount s e.msg.source e.incrTime) e result).1 0
            (urgentStep (IncrementListenerMessageCount s e.msg.source e.incrTime) e result).2).1,
          eventsCreated := (processItems e.msg e.itemNotifyTimes e.itemCalOk e.calConfigured
            result.actionItems 0
            (urgentStep (IncrementListenerMessageCount s e.msg.source e.incrTime) e result).1 0
            (urgentStep (IncrementListenerMessageCount s e.msg.source e.incrTime) e result).2).2.1,
          processedAt := e.processedTime } := by
  simp only [handleMessage, hcls]

theorem handleMessage_totalMessages (s : Store) (e : MsgEnv) :
    (handleMessage s e).stats.totalMessages = s.stats.totalMessages + 1 := by
  obtain ⟨-, -, -, hst⟩ := incr_preserves s e.msg.source e.incrTime
  cases hc : e.clsResult with
  | none =>
      simp only [handleMessage, hc]
      rw [(addPM_stats _ _).1, hst]
  | some result =>
      rw [handleMessage_classified s e result hc]
      rw [(addPM_stats _ _).1,
        (processItems_preserves e.msg e.itemNotifyTimes e.itemCalOk e.calConfigured
          result.actionItems 0 _ 0 _).2.2,
        (urgentStep_preserves (IncrementListenerMessageCount s e.msg.source e.incrTime)
          e result).2.2, hst]

theorem processMessages_totalMessages (es : List MsgEnv) (s : Store) :
    (processMessages s es).stats.totalMessages = s.stats.totalMessages + es.length := by
  induction es generalizing s with
  | nil => simp [processMessages]
  | cons e es ih =>
      have hfold : processMessages s (e :: es) = processMessages (handleMessage s e) es := rfl
      rw [hfold, ih, handleMessage_totalMessages]
      push_cast [List.length_cons]
      ring

/-! ### C4 — classification failure still stores a partial record -/

/-- C4: when classification fails, `handleMessage` still stores a record for
the event — written at the current ring position, with a null
classification, no `NotifiedAt` and zero calendar events — appends nothing
to the notification log, and processing continues: the remaining queue is
handled exactly as if this message had succeeded, and every queued message
still bumps `TotalMessages` by one. -/
theorem c4_classification_failure_never_stops_pipeline (s : Store) (e : MsgEnv)
    (hcls : e.clsResult = none) (hidx : s.writeIdx < s.messages.length) :
    (handleMessage s e).messages.getD s.writeIdx default =
      { message := some e.msg, classification := none, notifiedAt := none,
        eventsCreated := 0, processedAt := e.processedTime } ∧
    (handleMessage s e).notifications = s.notifications ∧
    (handleMessage s e).stats.totalMessages = s.stats.totalMessages + 1 ∧
    (∀ rest, processMessages s (e :: rest) = processMessages (handleMessage s e) rest) ∧
    ∀ es, (processMessages s es).stats.totalMessages =
      s.stats.totalMessages + es.length := by
  obtain ⟨hm, hw, hn, hst⟩ := incr_preserves s e.msg.source e.incrTime
  refine ⟨?_, ?_, handleMessage_totalMessages s e, fun rest => rfl,
    fun es => processMessages_totalMessages es s⟩
  · simp only [handleMessage, hcls]
    have : (AddProcessedMessage (IncrementListenerMessageCount s e.msg.source e.incrTime)
        { message := some e.msg, classification := none, notifiedAt := none,
          eventsCreated := 0, processedAt := e.processedTime }).messages =
        s.messages.set s.writeIdx
          { message := some e.msg, classification := none, notifiedAt := none,
            eventsCreated := 0, processedAt := e.processedTime } := by
      show (IncrementListenerMessageCount s e.msg.source e.incrTime).messages.set
          (IncrementListenerMessageCount s e.msg.source e.incrTime).writeIdx _ = _
      rw [hm, hw]
    rw [this]
    exact getD_set_self_of_lt _ _ _ hidx _
  · simp only [handleMessage, hcls]
    exact hn

/-- Environment with a failing classification, for the C4 witness. -/
def envFailC4 : MsgEnv :=
  { msg := { id := "m1", source := sourceGmail, sender := "alice", text := "hi",
             timestamp := 0, metadata := [] }
    clsResult := none
    urgentNotifyTime := none
    itemNotifyTimes := []
    itemCalOk := []
    calConfigured := false
    incrTime := 3
    processedTime := 4 }

/-- Witness for C4 at a concrete store and failing message: the partial
record is stored, the log is untouched, and a following message is still
processed. -/
theorem c4_witness :
    (handleMessage (NewStore 2) envFailC4).messages.getD 0 default =
      { message := some envFailC4.msg, classification := none, notifiedAt := none,
        eventsCreated := 0, processedAt := 4 } ∧
    (handleMessage (NewStore 2) envFailC4).notifications = [] ∧
    (processMessages (NewStore 2) [envFailC4, envFailC4]).stats.totalMessages = 2 := by
  have h := c4_classification_failure_never_stops_pipeline (NewStore 2) envFailC4
    (by rfl) (by decide)
  refine ⟨h.1, h.2.1, ?_⟩
  have := h.2.2.2.2 [envFailC4, envFailC4]
  simpa using this

/-! ### C7 — `NotifiedAt` is the first successful send -/

theorem processItems_fst (msg : Message) (ts : List (Option Int)) (cs : List Bool)
    (cfg : Bool) (items : List ActionItem) (j : Nat) (na : Option Int) (ev : Int)
    (s : Store) :
    (processItems msg ts cs cfg items j na ev s).1 =
      firstSome (na :: (List.range items.length).map fun i => ts.getD (j + i) none) := by
  induction items generalizing j na ev s with
  | nil => cases na <;> simp [processItems, firstSome]
  | cons it rest ih =>
      simp only [processItems]
      rw [ih, List.length_cons, List.range_succ_eq_map]
      simp only [List.map_cons, List.map_map, Nat.add_zero]
      have hcomp : ((fun i => ts.getD (j + i) none) ∘ Nat.succ) =
          fun i => ts.getD (j + 1 + i) none := by
        funext i
        have hji : j + Nat.succ i = j + 1 + i := by omega
        simp only [Function.comp_apply, hji]
      rw [hcomp]
      cases hna : na with
      | some t => cases hg : ts.getD j none <;> simp [firstSome, hg]
      | none => cases hg : ts.getD j none <;> simp [firstSome, hg]

/-- C7: for a successfully classified message, the stored record's
`NotifiedAt` equals the timestamp of the first successful notification send
in program order — the urgency send (when urgent) followed by the
per-action-item sends — and it is null exactly when every attempted send
failed. -/
theorem c7_notifiedAt_first_successful_send (s : Store) (e : MsgEnv)
    (result : ClassificationResult) (hcls : e.clsResult = some result)
    (hidx : s.writeIdx < s.messages.length) :
    ((handleMessage s e).messages.getD s.writeIdx default).notifiedAt =
      firstSome (notifyAttempts e result) ∧
    (((handleMessage s e).messages.getD s.writeIdx default).notifiedAt = none ↔
      ∀ a ∈ notifyAttempts e result, a = none) := by
  obtain ⟨hm, hw, hn, hst⟩ := incr_preserves s e.msg.source e.incrTime
  set s0 := IncrementListenerMessageCount s e.msg.source e.incrTime with hs0
  obtain ⟨um1, uw1, ust1⟩ := urgentStep_preserves s0 e result
  obtain ⟨pm1, pw1, pst1⟩ := processItems_preserves e.msg e.itemNotifyTimes e.itemCalOk
    e.calConfigured result.actionItems 0 (urgentStep s0 e result).1 0 (urgentStep s0 e result).2
  have hrec : (handleMessage s e).messages.getD s.writeIdx default =
      { message := some e.msg, classification := some result,
        notifiedAt := (processItems e.msg e.itemNotifyTimes e.itemCalOk e.calConfigured
          result.actionItems 0 (urgentStep s0 e result).1 0 (urgentStep s0 e result).2).1,
        eventsCreated := (processItems e.msg e.itemNotifyTimes e.itemCalOk e.calConfigured
          result.actionItems 0 (urgentStep s0 e result).1 0 (urgentStep s0 e result).2).2.1,
        processedAt := e.processedTime } := by
    rw [handleMessage_classified s e result hcls]
    have hmm : (AddProcessedMessage (processItems e.msg e.itemNotifyTimes e.itemCalOk
        e.calConfigured result.actionItems 0 (urgentStep s0 e result).1 0
        (urgentStep s0 e result).2).2.2
        { message := some e.msg, classification := some result,
          notifiedAt := (processItems e.msg e.itemNotifyTimes e.itemCalOk e.calConfigured
            result.actionItems 0 (urgentStep s0 e result).1 0 (urgentStep s0 e result).2).1,
          eventsCreated := (processItems e.msg e.itemNotifyTimes e.itemCalOk e.calConfigured
            result.actionItems 0 (urgentStep s0 e result).1 0 (urgentStep s0 e result).2).2.1,
          processedAt := e.processedTime }).messages =
        s.messages.set s.writeIdx
          { message := some e.msg, classification := some result,
            notifiedAt := (processItems e.msg e.itemNotifyTimes e.itemCalOk e.calConfigured
              result.actionItems 0 (urgentStep s0 e result).1 0 (urgentStep s0 e result).2).1,
            eventsCreated := (processItems e.msg e.itemNotifyTimes e.itemCalOk e.calConfigured
              result.actionItems 0 (urgentStep s0 e result).1 0 (urgentStep s0 e result).2).2.1,
            processedAt := e.processedTime } := by
      show (processItems e.msg e.itemNotifyTimes e.itemCalOk e.calConfigured
          result.actionItems 0 (urgentStep s0 e result).1 0
          (urgentStep s0 e result).2).2.2.messages.set
          (processItems e.msg e.itemNotifyTimes e.itemCalOk e.calConfigured
            result.actionItems 0 (urgentStep s0 e result).1 0
            (urgentStep s0 e result).2).2.2.writeIdx _ = _
      rw [pm1, pw1, um1, uw1, hm, hw]
    rw [hmm]
    exact getD_set_self_of_lt _ _ _ hidx _
  have hfirst : ((handleMessage s e).messages.getD s.writeIdx default).notifiedAt =
      firstSome (notifyAttempts e result) := by
    rw [hrec]
    show (processItems e.msg e.itemNotifyTimes e.itemCalOk e.calConfigured
        result.actionItems 0 (urgentStep s0 e result).1 0 (urgentStep s0 e result).2).1 = _
    rw [processItems_fst]
    simp only [Nat.zero_add]
    unfold notifyAttempts urgentStep
    cases hu : result.isUrgent with
    | false => simp [firstSome]
    | true => cases hn2 : e.urgentNotifyTime <;> simp [firstSome]
  exact ⟨hfirst, by rw [hfirst]; exact firstSome_eq_none_iff _⟩

/-- Environment with a successful classification, a failing urgency send and
a succeeding second action-item send, for the C7 witness. -/
def envC7 : MsgEnv :=
  { msg := { id := "m2", source := sourceSlack, sender := "bob", text := "do it",
             timestamp := 0, metadata := [] }
    clsResult := some
      { isUrgent := true
        actionItems :=
          [{ title := "a", description := "d1", dateTime := 10, durationMinutes := 30 },
           { title := "b", description := "d2", dateTime := 20, durationMinutes := 30 }] }
    urgentNotifyTime := none
    itemNotifyTimes := [none, some 42]
    itemCalOk := []
    calConfigured := false
    incrTime := 3
    processedTime := 4 }

/-- Witness for C7: with the urgency send and the first item send failing
and the second item send succeeding at time 42, the stored record's
`NotifiedAt` is 42. -/
theorem c7_witness :
    ((handleMessage (NewStore 2) envC7).messages.getD 0 default).notifiedAt = some 42 := by
  have h := c7_notifiedAt_first_successful_send (NewStore 2) envC7
    { isUrgent := true
      actionItems :=
        [{ title := "a", description := "d1", dateTime := 10, durationMinutes := 30 },
         { title := "b", description := "d2", dateTime := 20, durationMinutes := 30 }] }
    (by rfl) (by decide)
  exact h.1.trans (by decide)

/-! ### C1 — ring buffer retains exactly the last K records -/

theorem ringIdx_eq (w i K : Nat) (hi : i < K) :
    ringIdx w i K = (w + (K - 1 - i)) % K := by
  unfold ringIdx
  have h1 : (w : Int) - 1 - (i : Int) + (K : Int) = ((w + (K - 1 - i) : Nat) : Int) := by
    omega
  rw [h1, ← Int.ofNat_tmod]
  exact Int.toNat_ofNat _

theorem add_mod_ne (w d K : Nat) (hw : w < K) (hd1 : 1 ≤ d) (hdK : d < K) :
    (w + d) % K ≠ w := by
  rcases Nat.lt_or_ge (w + d) K with h | h
  · rw [Nat.mod_eq_of_lt h]; omega
  · rw [Nat.mod_eq_sub_mod h, Nat.mod_eq_of_lt (by omega)]; omega

/-- Invariant tying a store reached by inserting `l` into a fresh store of
capacity `K` to the list `l`: capacity and buffer length are `K`, occupancy
and write index track `l.length`, and the backward walk of the occupied
slots is exactly the most recent `min l.length K` inserts, newest first. -/
structure RingInv (K : Nat) (l : List ProcessedMessage) (s : Store) : Prop where
  cap : s.capacity = K
  len : s.messages.length = K
  cnt : s.count = min l.length K
  wi : s.writeIdx = l.length % K
  walk : recentWalk s s.count = l.reverse.take (min l.length K)

theorem ringInv_new (K : Nat) (hK : 0 < K) : RingInv K [] (NewStore (K : Int)) := by
  have hcap : (NewStore (K : Int)).capacity = K := by
    show (if (K : Int) ≤ 0 then 500 else (K : Int).toNat) = K
    rw [if_neg (by omega)]
    omega
  refine ⟨hcap, ?_, by simp [NewStore], by simp [NewStore], ?_⟩
  · show (List.replicate (if (K : Int) ≤ 0 then 500 else (K : Int).toNat)
      (default : ProcessedMessage)).length = K
    rw [List.length_replicate, if_neg (by omega)]
    omega
  · show recentWalk (NewStore (K : Int)) (NewStore (K : Int)).count = _
    have hc : (NewStore (K : Int)).count = 0 := rfl
    rw [hc]
    simp [recentWalk]

theorem ringInv_step (K : Nat) (hK : 0 < K) (l : List ProcessedMessage) (s : Store)
    (h : RingInv K l s) (pm : ProcessedMessage) :
    RingInv K (l ++ [pm]) (AddProcessedMessage s pm) := by
  obtain ⟨hcap, hlen, hcnt, hwi, hwalk⟩ := h
  have hwlt : s.writeIdx < K := by rw [hwi]; exact Nat.mod_lt _ hK
  have hNlen : (l ++ [pm]).length = l.length + 1 := by simp
  have hcap2 : (AddProcessedMessage s pm).capacity = K := hcap
  have hlen2 : (AddProcessedMessage s pm).messages.length = K := by
    show (s.messages.set s.writeIdx pm).length = K
    rw [List.length_set]; exact hlen
  have hcnt2 : (AddProcessedMessage s pm).count = min (l.length + 1) K := by
    show (if s.count < s.capacity then s.count + 1 else s.count) = _
    rw [hcnt, hcap]
    split <;> omega
  have hwi2 : (AddProcessedMessage s pm).writeIdx = (l.length + 1) % K := by
    show (s.writeIdx + 1) % s.capacity = _
    rw [hwi, hcap]
    rcases Nat.lt_or_ge K 2 with h1 | h1
    · have hK1 : K = 1 := by omega
      subst hK1
      simp [Nat.mod_one]
    · conv_rhs => rw [Nat.add_mod]
      rw [Nat.mod_eq_of_lt (by omega : 1 < K)]
  have hmin_pos : 0 < min (l.length + 1) K := by omega
  have hmin_le : min (l.length + 1) K - 1 ≤ min l.length K := by omega
  have hmsgs : (AddProcessedMessage s pm).messages = s.messages.set s.writeIdx pm := rfl
  -- the new backward walk is the new record followed by a prefix of the old walk
  have hwalkL : recentWalk (AddProcessedMessage s pm) (min (l.length + 1) K) =
      pm :: (List.range (min (l.length + 1) K - 1)).map
        (fun j => s.messages.getD (ringIdx s.writeIdx j s.capacity) default) := by
    apply List.ext_getElem
    · simp [recentWalk]
      omega
    · intro i h1 h2
      have hi : i < min (l.length + 1) K := by simpa [recentWalk] using h1
      cases i with
      | zero =>
          simp only [recentWalk, List.getElem_map, List.getElem_range,
            List.getElem_cons_zero]
          rw [hcap2, hwi2, hmsgs]
          have hidx0 : ringIdx ((l.length + 1) % K) 0 K = l.length % K := by
            rw [ringIdx_eq _ _ _ hK, Nat.mod_add_mod]
            have e : l.length + 1 + (K - 1 - 0) = l.length + K := by omega
            rw [e, Nat.add_mod_right]
          rw [hidx0, ← hwi]
          exact getD_set_self_of_lt _ _ _ (by rw [hlen]; exact hwlt) _
      | succ j =>
          have hj1K : j + 1 < K := lt_of_lt_of_le hi (min_le_right _ _)
          simp only [recentWalk, List.getElem_map, List.getElem_range,
            List.getElem_cons_succ]
          rw [hcap2, hwi2, hmsgs]
          have hidx : ringIdx ((l.length + 1) % K) (j + 1) K =
              (l.length + (K - 1 - j)) % K := by
            rw [ringIdx_eq _ _ _ hj1K, Nat.mod_add_mod]
            congr 1
            omega
          have hidxOld : ringIdx s.writeIdx j K = (l.length + (K - 1 - j)) % K := by
            rw [hwi, ringIdx_eq _ _ _ (by omega : j < K), Nat.mod_add_mod]
          have hne : s.writeIdx ≠ (l.length + (K - 1 - j)) % K := by
            rw [hwi]
            have hmod : (l.length % K + (K - 1 - j)) % K ≠ l.length % K :=
              add_mod_ne (l.length % K) (K - 1 - j) K (Nat.mod_lt _ hK)
                (by omega) (by omega)
            rw [Nat.mod_add_mod] at hmod
            exact fun e => hmod e.symm
          rw [hidx, getD_set_ne _ _ _ _ hne, ← hidxOld, ← hcap]
  -- the new target list has the same head/tail shape
  have hRHS : (l ++ [pm]).reverse.take (min (l.length + 1) K) =
      pm :: (List.range (min (l.length + 1) K - 1)).map
        (fun j => s.messages.getD (ringIdx s.writeIdx j s.capacity) default) := by
    rw [List.reverse_append]
    simp only [List.reverse_singleton, List.singleton_append]
    have h1 : min (l.length + 1) K = (min (l.length + 1) K - 1) + 1 := by omega
    rw [h1, List.take_succ_cons]
    congr 1
    have h2 : l.reverse.take (min (l.length + 1) K - 1) =
        (l.reverse.take (min l.length K)).take (min (l.length + 1) K - 1) := by
      rw [List.take_take, Nat.min_eq_left hmin_le]
    rw [h2, ← hwalk, hcnt]
    unfold recentWalk
    rw [← List.map_take, List.take_range, Nat.min_eq_left hmin_le,
      Nat.add_sub_cancel]
  refine ⟨hcap2, hlen2, ?_, ?_, ?_⟩
  · rw [hcnt2, hNlen]
  · rw [hwi2, hNlen]
  · rw [hcnt2, hNlen, hwalkL, hRHS]

theorem ringInv_insertAll (K : Nat) (hK : 0 < K) (l : List ProcessedMessage) :
    RingInv K l (insertAll (NewStore (K : Int)) l) := by
  induction l using List.reverseRecOn with
  | nil => exact ringInv_new K hK
  | append_singleton l pm ih =>
      have hfold : insertAll (NewStore (K : Int)) (l ++ [pm]) =
          AddProcessedMessage (insertAll (NewStore (K : Int)) l) pm := by
        simp [insertAll, List.foldl_append]
      rw [hfold]
      exact ringInv_step K hK l _ ih pm

theorem recentWalk_take (s : Store) (m n : Nat) (h : m ≤ n) :
    recentWalk s m = (recentWalk s n).take m := by
  unfold recentWalk
  rw [← List.map_take, List.take_range, Nat.min_eq_left h]

/-- C1: after inserting `N` records into a fresh store of capacity `K > 0`,
`GetRecentMessages` with limit `N` returns exactly the last `min N K`
inserted records in reverse-insertion order; for any limit, both record
reads return at most `count` records, and every record they return belongs
to the last `K` inserts — so when `N > K` the oldest `N − K` inserts are
unrecoverable through the record reads. -/
theorem c1_ring_buffer_retains_last_K (K : Nat) (hK : 0 < K)
    (l : List ProcessedMessage) :
    GetRecentMessages (insertAll (NewStore (K : Int)) l) (l.length : Int) =
      l.reverse.take (min l.length K) ∧
    (∀ limit : Int,
      (GetRecentMessages (insertAll (NewStore (K : Int)) l) limit).length ≤
        (insertAll (NewStore (K : Int)) l).count ∧
      ∀ pm ∈ GetRecentMessages (insertAll (NewStore (K : Int)) l) limit,
        pm ∈ l.drop (l.length - K)) ∧
    ∀ (src : Source) (limit : Int),
      (GetRecentMessagesBySource (insertAll (NewStore (K : Int)) l) src limit).length ≤
        (insertAll (NewStore (K : Int)) l).count ∧
      ∀ pm ∈ GetRecentMessagesBySource (insertAll (NewStore (K : Int)) l) src limit,
        pm ∈ l.drop (l.length - K) := by
  obtain ⟨hcap, hlen, hcnt, hwi, hwalk⟩ := ringInv_insertAll K hK l
  set s := insertAll (NewStore (K : Int)) l with hs
  have hmem : ∀ pm, pm ∈ l.reverse.take (min l.length K) → pm ∈ l.drop (l.length - K) := by
    intro pm hp
    rw [List.take_reverse, List.mem_reverse] at hp
    have e : l.length - min l.length K = l.length - K := by omega
    rwa [e] at hp
  have hwalkmem : ∀ pm, pm ∈ recentWalk s s.count → pm ∈ l.drop (l.length - K) := by
    intro pm hp
    rw [hwalk] at hp
    exact hmem pm hp
  refine ⟨?_, fun limit => ⟨?_, ?_⟩, fun src limit => ⟨?_, ?_⟩⟩
  · show recentWalk s (if (l.length : Int) ≤ 0 ∨ ((s.count : Int) < (l.length : Int))
      then s.count else (l.length : Int).toNat) = _
    have hlim : (if (l.length : Int) ≤ 0 ∨ ((s.count : Int) < (l.length : Int))
        then s.count else (l.length : Int).toNat) = s.count := by
      rw [hcnt]
      split <;> omega
    rw [hlim]
    exact hwalk
  · show (recentWalk s (if limit ≤ 0 ∨ ((s.count : Int) < limit)
      then s.count else limit.toNat)).length ≤ s.count
    simp only [recentWalk, List.length_map, List.length_range]
    split <;> omega
  · intro pm hp
    have hple : (if limit ≤ 0 ∨ ((s.count : Int) < limit)
        then s.count else limit.toNat) ≤ s.count := by
      split <;> omega
    have heq : GetRecentMessages s limit = (recentWalk s s.count).take
        (if limit ≤ 0 ∨ ((s.count : Int) < limit) then s.count else limit.toNat) :=
      recentWalk_take s _ s.count hple
    rw [heq] at hp
    exact hwalkmem pm (List.take_subset _ _ hp)
  · have hby : GetRecentMessagesBySource s src limit =
        ((recentWalk s s.count).filter fun pm =>
          match pm.message with
          | some m => m.source = src
          | none => false).take (if limit ≤ 0 then s.count else limit.toNat) := rfl
    rw [hby]
    calc (((recentWalk s s.count).filter fun pm =>
          match pm.message with
          | some m => m.source = src
          | none => false).take (if limit ≤ 0 then s.count else limit.toNat)).length
        ≤ ((recentWalk s s.count).filter fun pm =>
            match pm.message with
            | some m => m.source = src
            | none => false).length := by
          rw [List.length_take]; exact min_le_right _ _
      _ ≤ (recentWalk s s.count).length := List.length_filter_le _ _
      _ = s.count := by simp [recentWalk]
  · intro pm hp
    have hby : GetRecentMessagesBySource s src limit =
        ((recentWalk s s.count).filter fun pm =>
          match pm.message with
          | some m => m.source = src
          | none => false).take (if limit ≤ 0 then s.count else limit.toNat) := rfl
    rw [hby] at hp
    have hp2 := List.take_subset _ _ hp
    have hp3 : pm ∈ recentWalk s s.count := (List.mem_filter.mp hp2).1
    exact hwalkmem pm hp3

/-- First concrete record for the C1 witness. -/
def pmC1a : ProcessedMessage :=
  { message := none, classification := none, notifiedAt := none,
    eventsCreated := 0, processedAt := 11 }

/-- Second concrete record for the C1 witness. -/
def pmC1b : ProcessedMessage :=
  { message := none, classification := none, notifiedAt := none,
    eventsCreated := 0, processedAt := 12 }

/-- Third concrete record for the C1 witness. -/
def pmC1c : ProcessedMessage :=
  { message := none, classification := none, notifiedAt := none,
    eventsCreated := 0, processedAt := 13 }

/-- Witness for C1: three inserts into capacity 2 leave exactly the last two
records, newest first, and a returned record lies in the last-2 window. -/
theorem c1_witness :
    GetRecentMessages (insertAll (NewStore 2) [pmC1a, pmC1b, pmC1c]) 3 =
      [pmC1c, pmC1b] ∧
    pmC1b ∈ [pmC1a, pmC1b, pmC1c].drop 1 := by
  have h := c1_ring_buffer_retains_last_K 2 (by decide) [pmC1a, pmC1b, pmC1c]
  refine ⟨h.1.trans (by decide), ?_⟩
  exact (h.2.1 3).2 pmC1b (by decide)

/-! ### C8 — listener snapshot is a shallow copy, not a deep copy -/

/-- Store with one gmail listener whose `LastMessage` points at heap cell 0
holding the instant 5, reached through the public API. -/
def storeC8 : Store :=
  IncrementListenerMessageCount
    (UpdateListenerStatus (NewStore 1) "Gmail" sourceGmail true) sourceGmail 5

/-- C8 counterexample: the snapshot returned by `GetListenerStatuses` holds
the same `LastMessage` address as the internal status, so writing 99 through
that pointer changes the internal status's observed last-message time from
5 to 99 — the snapshot is not a deep copy and external mutation through it
does reach internal state. -/
theorem c8_counterexample :
    ((GetListenerStatuses storeC8).getD 0 default).lastMessage =
      (storeC8.listeners.getD 0 default).lastMessage ∧
    observedLastMessage storeC8 (storeC8.listeners.getD 0 default) = some 5 ∧
    observedLastMessage (writeTimeCell storeC8 0 99)
      ((writeTimeCell storeC8 0 99).listeners.getD 0 default) = some 99 := by
  decide

/-- C8 amended: `GetListenerStatuses` returns a struct-level (shallow) copy —
each returned status equals the internal one field-for-field, including the
`LastMessage` address, which is therefore shared; a write through such a
pointer touches only the pointed-to time cell, leaving every status struct
and all other store state unchanged. -/
theorem c8_snapshot_is_shallow_copy (s : Store) :
    GetListenerStatuses s = s.listeners ∧
    ∀ p v, (writeTimeCell s p v).listeners = s.listeners ∧
      (writeTimeCell s p v).messages = s.messages ∧
      (writeTimeCell s p v).notifications = s.notifications ∧
      (writeTimeCell s p v).stats = s.stats ∧
      (writeTimeCell s p v).subscribers = s.subscribers := by
  exact ⟨by simp [GetListenerStatuses], fun p v => ⟨rfl, rfl, rfl, rfl, rfl⟩⟩

/-! ### C2 — stats are the sum of per-insert deltas -/

theorem insertAll_stats (l : List ProcessedMessage) (s : Store) :
    (insertAll s l).stats.totalMessages = s.stats.totalMessages + l.length ∧
    (insertAll s l).stats.urgentMessages =
      s.stats.urgentMessages + l.countP isUrgentRecord ∧
    (insertAll s l).stats.totalActionItems =
      s.stats.totalActionItems + ((l.map recordActionItems).sum : Int) ∧
    (insertAll s l).stats.notificationsSent =
      s.stats.notificationsSent + l.countP (fun pm => pm.notifiedAt.isSome) ∧
    (insertAll s l).stats.eventsCreated =
      s.stats.eventsCreated + (l.map (fun pm => pm.eventsCreated)).sum ∧
    ∀ src, lookupSource (insertAll s l).stats.bySource src =
      lookupSource s.stats.bySource src + l.countP (hasSource src) := by
  induction l generalizing s with
  | nil => simp [insertAll]
  | cons pm l ih =>
      obtain ⟨h1, h2, h3, h4, h5, h6⟩ := addPM_stats s pm
      obtain ⟨g1, g2, g3, g4, g5, g6⟩ := ih (AddProcessedMessage s pm)
      have hfold : insertAll s (pm :: l) = insertAll (AddProcessedMessage s pm) l := rfl
      rw [hfold]
      refine ⟨?_, ?_, ?_, ?_, ?_, fun src => ?_⟩
      · rw [g1, h1]; push_cast [List.length_cons]; ring
      · rw [g2, h2, List.countP_cons]; push_cast
        by_cases hp : isUrgentRecord pm <;> simp [hp] <;> omega
      · rw [g3, h3, List.map_cons, List.sum_cons]; push_cast; ring
      · rw [g4, h4, List.countP_cons]; push_cast
        by_cases hp : pm.notifiedAt.isSome <;> simp [hp] <;> omega
      · rw [g5, h5, List.map_cons, List.sum_cons]; ring
      · rw [g6 src, h6 src, List.countP_cons]; push_cast
        by_cases hp : hasSource src pm <;> simp [hp] <;> omega

/-- C2: after inserting any sequence of records into a fresh store, every
aggregate counter equals the sum of the per-insert deltas: `TotalMessages`
is the number of inserts, `UrgentMessages` counts records whose
classification is present and urgent, `TotalActionItems` sums the action
item list lengths, `NotificationsSent` counts records with a non-null
`NotifiedAt`, `EventsCreated` sums the records' `EventsCreated`, and each
`BySource` entry counts records whose message carries that source. -/
theorem c2_stats_sum_of_per_insert_deltas (capacity : Int)
    (l : List ProcessedMessage) :
    (insertAll (NewStore capacity) l).stats.totalMessages = l.length ∧
    (insertAll (NewStore capacity) l).stats.urgentMessages =
      l.countP isUrgentRecord ∧
    (insertAll (NewStore capacity) l).stats.totalActionItems =
      ((l.map recordActionItems).sum : Int) ∧
    (insertAll (NewStore capacity) l).stats.notificationsSent =
      l.countP (fun pm => pm.notifiedAt.isSome) ∧
    (insertAll (NewStore capacity) l).stats.eventsCreated =
      (l.map (fun pm => pm.eventsCreated)).sum ∧
    ∀ src, lookupSource (insertAll (NewStore capacity) l).stats.bySource src =
      l.countP (hasSource src) := by
  obtain ⟨h1, h2, h3, h4, h5, h6⟩ := insertAll_stats l (NewStore capacity)
  have hz : (NewStore capacity).stats = ⟨0, 0, 0, 0, 0, []⟩ := rfl
  refine ⟨?_, ?_, ?_, ?_, ?_, fun src => ?_⟩
  · rw [h1, hz]; simp
  · rw [h2, hz]; simp
  · rw [h3, hz]; simp
  · rw [h4, hz]; simp
  · rw [h5, hz]; simp
  · rw [h6 src, hz]; simp [lookupSource]

/-! ### Notification log lemmas (C3, C10) -/

theorem getRecentNotifications_eq_take (s : Store) (limit : Int) :
    GetRecentNotifications s limit = s.notifications.reverse.take
      (if limit ≤ 0 ∨ ((s.notifications.length : Int) < limit)
       then s.notifications.length else limit.toNat) := by
  set total := s.notifications.length with htotal
  set lim : Nat := if limit ≤ 0 ∨ ((total : Int) < limit) then total else limit.toNat
    with hlim
  have hle : lim ≤ total := by
    rw [hlim]; split
    · exact le_rfl
    · omega
  have hgoal : GetRecentNotifications s limit =
      (List.range lim).map fun i => s.notifications.getD (total - 1 - i) default := rfl
  rw [hgoal]
  refine List.ext_getElem ?_ fun i h1 h2 => ?_
  · simp [hle, Nat.min_eq_left]
  · have hi : i < lim := by simpa using h1
    have hidx : total - 1 - i < total := by omega
    rw [List.getElem_map, List.getElem_range,
      getD_eq_getElem_of_lt _ _ _ hidx, List.getElem_take, List.getElem_reverse]

theorem appendAll_notifications (capacity : Int) (l : List Notification) :
    (appendAll (NewStore capacity) l).notifications =
      l.drop (l.length - maxNotifications) := by
  induction l using List.reverseRecOn with
  | nil => simp [appendAll, NewStore]
  | append_singleton l n ih =>
      have hfold : appendAll (NewStore capacity) (l ++ [n]) =
          AddNotification (appendAll (NewStore capacity) l) n := by
        simp [appendAll, List.foldl_append]
      rw [hfold]
      by_cases hlen : maxNotifications ≤ l.length
      · have hcond : maxNotifications ≤
            (appendAll (NewStore capacity) l).notifications.length := by
          rw [ih, List.length_drop]
          unfold maxNotifications at hlen ⊢
          omega
        have hnew : (AddNotification (appendAll (NewStore capacity) l) n).notifications =
            (appendAll (NewStore capacity) l).notifications.drop 1 ++ [n] := by
          simp only [AddNotification, if_pos hcond]
        rw [hnew, ih, List.drop_drop]
        have h1 : l.length - maxNotifications + 1 = l.length + 1 - maxNotifications := by
          unfold maxNotifications at hlen ⊢; omega
        have h2 : (l ++ [n]).length - maxNotifications = l.length + 1 - maxNotifications := by
          simp
        rw [h1, h2,
          List.drop_append_of_le_length (by unfold maxNotifications at hlen ⊢; omega)]
      · have hcond : ¬ maxNotifications ≤
            (appendAll (NewStore capacity) l).notifications.length := by
          rw [ih, List.length_drop]
          unfold maxNotifications at hlen ⊢
          omega
        have hnew : (AddNotification (appendAll (NewStore capacity) l) n).notifications =
            (appendAll (NewStore capacity) l).notifications ++ [n] := by
          simp only [AddNotification, if_neg hcond]
        rw [hnew, ih]
        have h0 : l.length - maxNotifications = 0 := by
          unfold maxNotifications at hlen ⊢; omega
        have h1 : (l ++ [n]).length - maxNotifications = 0 := by
          simp only [List.length_append, List.length_singleton]
          unfold maxNotifications at hlen ⊢; omega
        rw [h0, h1]
        simp

/-! ### C3 — notification log caps at 100, drop-oldest -/

/-- C3: after any sequence of appends to a fresh store the notification log
holds the last (at most 100) appended entries in append order — so it never
exceeds 100 entries, and after 101 appends it equals appends 2..101 — and
`GetRecentNotifications` returns the most recent entries in reverse-append
order (the reversed log truncated to the effective limit). -/
theorem c3_notification_log_capped (capacity : Int) (l : List Notification) :
    (appendAll (NewStore capacity) l).notifications.length ≤ maxNotifications ∧
    (appendAll (NewStore capacity) l).notifications =
      l.drop (l.length - maxNotifications) ∧
    (l.length = 101 →
      (appendAll (NewStore capacity) l).notifications = l.drop 1) ∧
    ∀ limit : Int, GetRecentNotifications (appendAll (NewStore capacity) l) limit =
      (appendAll (NewStore capacity) l).notifications.reverse.take
        (if limit ≤ 0 ∨
            (((appendAll (NewStore capacity) l).notifications.length : Int) < limit)
         then (appendAll (NewStore capacity) l).notifications.length
         else limit.toNat) := by
  obtain h := appendAll_notifications capacity l
  refine ⟨?_, h, ?_, fun limit => getRecentNotifications_eq_take _ limit⟩
  · rw [h, List.length_drop]; unfold maxNotifications; omega
  · intro h101
    rw [h, h101]
    rfl

/-- Concrete sequence of 101 notification appends, for the C3 witness. -/
def notifsC3 : List Notification :=
  (List.range 101).map fun i => { message := none, reason := "urgent", sentAt := (i : Int) }

/-- Witness for C3 at 101 concrete appends: the log is appends 2..101 and
holds 100 entries. -/
theorem c3_witness :
    (appendAll (NewStore 1) notifsC3).notifications = notifsC3.drop 1 ∧
    (appendAll (NewStore 1) notifsC3).notifications.length ≤ maxNotifications := by
  have h := c3_notification_log_capped 1 notifsC3
  have hlen : notifsC3.length = 101 := by decide
  exact ⟨h.2.2.1 hlen, h.1⟩

/-! ### C10 — non-positive limits mean "everything" -/

/-- C10: with a non-positive limit, `GetRecentMessages` returns the full
occupancy (the complete backward walk of the ring buffer, `count` records)
and `GetRecentNotifications` returns the whole log in reverse-append order
— never an empty list. -/
theorem c10_nonpositive_limit_returns_all (s : Store) (limit : Int)
    (h : limit ≤ 0) :
    GetRecentMessages s limit = recentWalk s s.count ∧
    (GetRecentMessages s limit).length = s.count ∧
    GetRecentNotifications s limit = s.notifications.reverse ∧
    (GetRecentNotifications s limit).length = s.notifications.length := by
  have h1 : GetRecentMessages s limit = recentWalk s s.count := by
    simp [GetRecentMessages, h]
  have h2 : GetRecentNotifications s limit = s.notifications.reverse := by
    rw [getRecentNotifications_eq_take, if_pos (Or.inl h),
      ← List.length_reverse s.notifications, List.take_length]
  refine ⟨h1, ?_, h2, ?_⟩
  · rw [h1]; simp [recentWalk]
  · rw [h2]; simp

/-- A concrete processed record, for witnesses. -/
def pmW1 : ProcessedMessage :=
  { message := none, classification := none, notifiedAt := none,
    eventsCreated := 0, processedAt := 1 }

/-- A second concrete processed record, for witnesses. -/
def pmW2 : ProcessedMessage :=
  { message := none, classification := none, notifiedAt := none,
    eventsCreated := 0, processedAt := 2 }

/-- Concrete store for the C10 witness: two inserted records, one logged
notification. -/
def storeC10 : Store :=
  AddNotification (insertAll (NewStore 2) [pmW1, pmW2])
    { message := none, reason := "urgent", sentAt := 5 }

/-- Witness for C10: limit 0 returns both buffered records (full occupancy,
newest first) and the whole notification log, not an empty list. -/
theorem c10_witness :
    GetRecentMessages storeC10 0 = [pmW2, pmW1] ∧
    (GetRecentMessages storeC10 0).length = storeC10.count ∧
    GetRecentNotifications storeC10 0 =
      [{ message := none, reason := "urgent", sentAt := 5 }] := by
  have h := c10_nonpositive_limit_returns_all storeC10 0 (by decide)
  refine ⟨?_, h.2.1, ?_⟩
  · rw [h.1]; decide
  · rw [h.2.2.1]; decide

/-- A full mailbox (16 pending tokens) for the C6 witness. -/
def fullMailboxC6 : List String := List.replicate 16 "refresh"

/-- Store with one full and one empty subscriber mailbox. -/
def storeC6 : Store :=
  { NewStore 2 with subscribers := [fullMailboxC6, []] }

/-- Witness for C6: inserting into a store whose first subscriber mailbox is
full still completes (count grows, the record lands in the buffer), delivers
to the empty mailbox, leaves the full mailbox untouched, and keeps both
subscribers registered. -/
theorem c6_witness :
    (AddProcessedMessage storeC6 default).subscribers.length = 2 ∧
    (AddProcessedMessage storeC6 default).subscribers.getD 0 [] = fullMailboxC6 ∧
    (AddProcessedMessage storeC6 default).subscribers.getD 1 [] = ["refresh"] ∧
    (AddProcessedMessage storeC6 default).count = 1 := by
  have h := c6_broadcast_skips_full_mailboxes storeC6 default
  refine ⟨by rw [h.1]; rfl, ?_, ?_, by rw [h.2.2.2.1]; rfl⟩
  · exact (h.2.1 0 (by decide)).2 (by decide)
  · have := (h.2.1 1 (by decide)).1 (by decide)
    simpa using this
end NotifyLM
